import Mathlib

/-!
Verification of the playback source-resolution and fallback state machine of
SafeAudioPlayer (src/components/common/SafeAudioPlayer.tsx) and of the label
formatting helper of FlowchartCompletion
(src/components/reading/questions/FlowchartCompletion.tsx).

The component is single-threaded and event driven: every signal handler
(loaded metadata, media error, HEAD-probe resolution, interval tick, user
actions, URL change) runs to completion on one queue.  We embed the component
state as a structure and each handler of the source as a pure state
transformer; an execution is a fold of an event list over the state.
Machine ticks and probe completions are delivered by the environment; the
predicate evOk below says which deliveries are possible in a given state.
-/

/-- Model of the HTMLAudioElement owned by the component via audioRef
(created at line 76 of SafeAudioPlayer.tsx). Times are rationals, standing
for the float seconds of the source. -/
structure AudioElem where
  src : String
  paused : Bool
  currentTime : ℚ
  duration : ℚ
  volume : ℚ
deriving DecidableEq

/-- The three-way decision of the source resolver, as named by the spec:
Pending while loading with no recorded failure, Real once metadata has
arrived with no recorded failure, Fallback once a failure is recorded or no
asset reference was supplied. -/
inductive Decision
  | Pending
  | Fallback
  | Real
deriving DecidableEq

/-- Component state of SafeAudioPlayer: the React state hooks (lines 36-41),
the two refs (lines 43-44), the props the claims need, and observability
counters for the side effects the spec talks about (HEAD requests issued,
audio elements created, onError and onEnded invocations).  The session
counter numbers the runs of the main effect; pendingProbes holds the session
numbers whose HEAD probe has not resolved yet (a fetch cannot be cancelled,
so probes of torn-down sessions stay pending). -/
structure PlayerState where
  audioUrl : Option String
  autoPlay : Bool
  loadError : Bool
  isLoading : Bool
  isPlaying : Bool
  progress : ℚ
  duration : ℚ
  isMuted : Bool
  audioRef : Option AudioElem
  intervalActive : Bool
  pendingProbes : List Nat
  session : Nat
  headRequests : Nat
  audiosCreated : Nat
  errors : List String
  endedCount : Nat
deriving DecidableEq

/-- The rendering decision of lines 193-214: fallback when loadError or no
URL; otherwise the real player, still pending while isLoading. -/
def decision (s : PlayerState) : Decision :=
  if s.loadError then Decision.Fallback
  else if s.audioUrl.isNone then Decision.Fallback
  else if s.isLoading then Decision.Pending
  else Decision.Real

/-- Normalized view of the published progress, as used by the spec: the
component publishes progress on a 0-100 scale (the slider has max 100), and
the positionFraction of the spec is that value divided by 100. -/
def positionFraction (s : PlayerState) : ℚ :=
  s.progress / 100

/-- State reset at the start of the main effect (lines 62-65). -/
def resetState (s : PlayerState) : PlayerState :=
  { s with loadError := false, isLoading := true, isPlaying := false,
           progress := 0 }

/-- One run of the main effect body (lines 60-125): reset, then either the
no-URL early return (lines 68-73) or creation of the audio element, volume
per mute state, src assignment and the HEAD probe issue (lines 76-125).
The new probe is tagged with the new session number. -/
def startSession (url : Option String) (s : PlayerState) : PlayerState :=
  let s := resetState s
  match url with
  | none =>
      { s with audioUrl := none, loadError := true, isLoading := false,
               session := s.session + 1 }
  | some u =>
      { s with audioUrl := some u,
               audioRef := some { src := u, paused := true, currentTime := 0,
                                  duration := 0,
                                  volume := if s.isMuted then 0 else 1 },
               audiosCreated := s.audiosCreated + 1,
               headRequests := s.headRequests + 1,
               pendingProbes := (s.session + 1) :: s.pendingProbes,
               session := s.session + 1 }

/-- The cleanup returned by the main effect (lines 127-130): pause the audio
element of that effect and clear its src.  A session without a URL returned
early and installed no cleanup. -/
def effectCleanup (s : PlayerState) : PlayerState :=
  match s.audioRef with
  | some a => { s with audioRef := some { a with paused := true, src := "" } }
  | none => s

/-- Asset-reference change: React runs the previous effect cleanup (only if
that effect installed one, i.e. its URL was present), then the effect body
for the new URL. -/
def changeUrl (url : Option String) (s : PlayerState) : PlayerState :=
  startSession url (if s.audioUrl.isSome then effectCleanup s else s)

/-- Unmount cleanup (lines 47-57): clear the interval, pause the audio
element and clear its src.  Neither ref is nulled by the source. -/
def teardown (s : PlayerState) : PlayerState :=
  let s := { s with intervalActive := false }
  match s.audioRef with
  | some a => { s with audioRef := some { a with paused := true, src := "" } }
  | none => s

/-- Initial hook state on mount (lines 36-44) with the autoPlay prop. -/
def initState (autoPlay : Bool) : PlayerState :=
  { audioUrl := none, autoPlay := autoPlay, loadError := false,
    isLoading := true, isPlaying := false, progress := 0, duration := 0,
    isMuted := false, audioRef := none, intervalActive := false,
    pendingProbes := [], session := 0, headRequests := 0, audiosCreated := 0,
    errors := [], endedCount := 0 }

/-- Mount with a given audioUrl prop: initial state, then the first run of
the main effect. -/
def mount (url : Option String) (autoPlay : Bool) : PlayerState :=
  startSession url (initState autoPlay)

/-- Handler onloadedmetadata (lines 81-90): record duration, clear the
loading flag and, if autoPlay, attempt playback.  The play attempt either
starts playback (the element leaves the paused state; the onplay handler
will fire as its own event) or fails; a failure is only logged (lines
86-88) and changes nothing. -/
def onLoadedMetadata (d : ℚ) (playOk : Bool) (s : PlayerState) : PlayerState :=
  { s with duration := d, isLoading := false,
           audioRef := s.audioRef.map (fun a =>
             { a with duration := d,
                      paused := if s.autoPlay && playOk then false
                                else a.paused }) }

/-- Handler onplay (line 92). -/
def onPlayEv (s : PlayerState) : PlayerState :=
  { s with isPlaying := true }

/-- Handler onpause (line 93). -/
def onPauseEv (s : PlayerState) : PlayerState :=
  { s with isPlaying := false }

/-- Handler onended (lines 95-99). -/
def onEndedEv (s : PlayerState) : PlayerState :=
  { s with isPlaying := false, progress := 0,
           endedCount := s.endedCount + 1 }

/-- Handler onerror of the media element (lines 101-106): record the load
failure and surface the fixed message to the caller. -/
def onMediaError (s : PlayerState) : PlayerState :=
  { s with loadError := true, isLoading := false,
           errors := s.errors ++ ["Audio failed to load"] }

/-- Resolution of the HEAD probe with res.ok (lines 113-117): nothing
happens. -/
def onProbeOk (sid : Nat) (s : PlayerState) : PlayerState :=
  { s with pendingProbes := s.pendingProbes.erase sid }

/-- Resolution of the HEAD probe with a non-success status or a network
failure (lines 118-125): if audioRef holds an element, clear its src to
abandon the in-flight load, then record the load failure.  The source
checks only that audioRef.current is non-null; it carries no liveness flag,
so the handler is the same whichever session sid issued the probe. -/
def onProbeFail (sid : Nat) (s : PlayerState) : PlayerState :=
  { s with pendingProbes := s.pendingProbes.erase sid,
           audioRef := s.audioRef.map (fun a => { a with src := "" }),
           loadError := true, isLoading := false }

/-- One interval tick of the progress effect (lines 143-148): the element
has advanced to currentTime c; the handler publishes c / duration * 100
unless the duration is zero (falsy guard at line 145). -/
def tickSample (c : ℚ) (s : PlayerState) : PlayerState :=
  match s.audioRef with
  | none => s
  | some a =>
      if a.duration = 0 then
        { s with audioRef := some { a with currentTime := c } }
      else
        { s with audioRef := some { a with currentTime := c },
                 progress := c / a.duration * 100 }

/-- User seek (lines 174-181): no-op without an element or with an unknown
(zero) duration; otherwise assign the absolute time on the element and
update the published progress immediately. -/
def handleSeek (v : ℚ) (s : PlayerState) : PlayerState :=
  match s.audioRef with
  | none => s
  | some a =>
      if a.duration = 0 then s
      else { s with audioRef := some { a with currentTime := v / 100 * a.duration },
                    progress := v }

/-- The progress effect (lines 141-161): the interval exists exactly while
isPlaying, an element exists, and no load error is recorded.  We reconcile
after every event; the condition only reads fields events can change. -/
def reconcileTimer (s : PlayerState) : PlayerState :=
  { s with intervalActive := s.isPlaying && s.audioRef.isSome && !s.loadError }

/-- The events of one mounted component: element events, probe resolutions
tagged by issuing session, interval ticks carrying the element position,
user seeks, and asset-reference changes. -/
inductive Ev
  | metadata (d : ℚ) (playOk : Bool)
  | play
  | pause
  | ended
  | mediaError
  | probeOk (sid : Nat)
  | probeFail (sid : Nat)
  | tick (c : ℚ)
  | seek (v : ℚ)
  | setUrl (url : Option String)
deriving DecidableEq

/-- Dispatch one event to its handler, then reconcile the progress timer. -/
def step (e : Ev) (s : PlayerState) : PlayerState :=
  reconcileTimer <|
    match e with
    | .metadata d ok => onLoadedMetadata d ok s
    | .play => onPlayEv s
    | .pause => onPauseEv s
    | .ended => onEndedEv s
    | .mediaError => onMediaError s
    | .probeOk sid => onProbeOk sid s
    | .probeFail sid => onProbeFail sid s
    | .tick c => tickSample c s
    | .seek v => handleSeek v s
    | .setUrl u => changeUrl u s

/-- Run a list of events. -/
def run (evs : List Ev) (s : PlayerState) : PlayerState :=
  evs.foldl (fun s e => step e s) s

/-- Events that stay within one session (everything except an
asset-reference change). -/
def sessionEv : Ev → Bool
  | .setUrl _ => false
  | _ => true

/-- Which events the environment can deliver in a given state: element
events need an element; a metadata event fires once per resource (element
duration still zero, src not cleared) and carries a nonnegative duration; a
probe resolution needs that probe pending; a tick needs the interval and a
position within the element duration; a seek comes from the slider with
range 0-100. -/
def evOk (s : PlayerState) : Ev → Bool
  | .metadata d _ =>
      (match s.audioRef with
       | some a => decide (a.duration = 0) && decide (a.src ≠ "")
       | none => false) && decide (0 ≤ d)
  | .play => s.audioRef.isSome
  | .pause => s.audioRef.isSome
  | .ended => s.audioRef.isSome
  | .mediaError => s.audioRef.isSome
  | .probeOk sid => s.pendingProbes.contains sid
  | .probeFail sid => s.pendingProbes.contains sid
  | .tick c =>
      s.intervalActive &&
      (match s.audioRef with
       | some a => decide (0 ≤ c) && decide (c ≤ a.duration)
       | none => false)
  | .seek v => decide (0 ≤ v) && decide (v ≤ 100)
  | .setUrl _ => true

/-- A trace is valid from a state when each event is possible when it is
delivered. -/
def validFrom (s : PlayerState) : List Ev → Bool
  | [] => true
  | e :: es => evOk s e && validFrom (step e s) es

example : decision (mount none false) = Decision.Fallback := by decide
example : decision (mount (some "https://x/a.mp3") false) = Decision.Pending := by
  decide
example :
    decision (step (Ev.metadata 30 true) (mount (some "https://x/a.mp3") false)) =
      Decision.Real := by decide

/-- Fields a within-session event never changes, and the two monotone flags:
loadError can only turn on, isLoading can only turn off. -/
theorem step_session_effects (e : Ev) (s : PlayerState)
    (h : sessionEv e = true) :
    (step e s).audioUrl = s.audioUrl ∧
    (s.loadError = true → (step e s).loadError = true) ∧
    ((step e s).isLoading = true → s.isLoading = true) ∧
    (step e s).headRequests = s.headRequests ∧
    (step e s).audiosCreated = s.audiosCreated := by
  cases e <;>
    simp_all [step, sessionEv, reconcileTimer, onLoadedMetadata, onPlayEv,
      onPauseEv, onEndedEv, onMediaError, onProbeOk, onProbeFail, tickSample,
      handleSeek] <;>
    cases hr : s.audioRef <;> simp [hr] <;> split <;> simp

/-- Once loadError is set, any sequence of within-session events keeps it
set. -/
theorem run_loadError (evs : List Ev) :
    ∀ s : PlayerState, evs.all sessionEv = true → s.loadError = true →
      (run evs s).loadError = true := by
  induction evs with
  | nil => intro s _ hl; exact hl
  | cons e es ih =>
      intro s h hl
      simp only [List.all_cons, Bool.and_eq_true] at h
      exact ih (step e s) h.2 ((step_session_effects e s h.1).2.1 hl)

/-- The decision is Fallback exactly when a load failure is recorded or no
URL is present. -/
theorem decision_fallback_iff (s : PlayerState) :
    decision s = Decision.Fallback ↔
      s.loadError = true ∨ s.audioUrl = none := by
  unfold decision
  split
  · simp_all
  · split
    · simp_all [Option.isNone_iff_eq_none]
    · split <;> simp_all [Option.isNone_iff_eq_none]

/-- The decision is Real exactly when no failure is recorded, a URL is
present and loading has finished. -/
theorem decision_real_iff (s : PlayerState) :
    decision s = Decision.Real ↔
      s.loadError = false ∧ s.audioUrl.isNone = false ∧
        s.isLoading = false := by
  unfold decision
  split
  · simp_all
  · split
    · simp_all
    · split <;> simp_all [Option.isSome_iff_ne_none]

/-- The decision is Pending exactly when no failure is recorded, a URL is
present and loading has not finished. -/
theorem decision_pending_iff (s : PlayerState) :
    decision s = Decision.Pending ↔
      s.loadError = false ∧ s.audioUrl.isNone = false ∧
        s.isLoading = true := by
  unfold decision
  split
  · simp_all
  · split
    · simp_all
    · split <;> simp_all [Option.isSome_iff_ne_none]

/-- C1: within a session the decision is monotone in the direction the code
implements: Fallback is absorbing, from Real the only moves are staying Real
or committing Fallback, and the decision never returns to Pending.  (The
part of the claim saying a late probe failure after a Real commit is
ignored is refuted separately: the probe failure handler records the load
failure unconditionally.) -/
theorem c1_decision_monotone (e : Ev) (s : PlayerState)
    (hse : sessionEv e = true) :
    (decision s = Decision.Fallback → decision (step e s) = Decision.Fallback) ∧
    (decision s = Decision.Real →
      decision (step e s) = Decision.Real ∨
        decision (step e s) = Decision.Fallback) ∧
    (decision (step e s) = Decision.Pending → decision s = Decision.Pending) := by
  obtain ⟨hurl, herr, hload, -, -⟩ := step_session_effects e s hse
  refine ⟨?_, ?_, ?_⟩
  · intro hf
    rcases (decision_fallback_iff s).mp hf with h | h
    · exact (decision_fallback_iff _).mpr (Or.inl (herr h))
    · exact (decision_fallback_iff _).mpr (Or.inr (hurl.trans h))
  · intro hr
    obtain ⟨h1, h2, h3⟩ := (decision_real_iff s).mp hr
    rcases he : (step e s).loadError with _ | _
    · left
      refine (decision_real_iff _).mpr ⟨he, by rw [hurl]; exact h2, ?_⟩
      rcases hl : (step e s).isLoading with _ | _
      · rfl
      · exact absurd (hload hl) (by simp [h3])
    · exact Or.inr ((decision_fallback_iff _).mpr (Or.inl he))
  · intro hp
    obtain ⟨h1, h2, h3⟩ := (decision_pending_iff (step e s)).mp hp
    refine (decision_pending_iff s).mpr ⟨?_, ?_, hload h3⟩
    · rcases hl : s.loadError with _ | _
      · rfl
      · exact absurd (herr hl) (by simp [h1])
    · rw [hurl] at h2; exact h2

/-- Witness for c1_decision_monotone at a concrete input. -/
theorem c1_decision_monotone_witness :
    decision (step (Ev.seek 10) (mount none false)) = Decision.Fallback :=
  (c1_decision_monotone (Ev.seek 10) (mount none false) (by decide)).1
    (by decide)

/-- C1 counterexample: the claim as stated is false on the code.  With a
valid trace in which the metadata arrives first (decision committed to
Real) and the probe fails afterwards, the decision does not remain Real:
the probe failure handler records the load failure and the decision becomes
Fallback. -/
theorem c1_counterexample :
    validFrom (mount (some "https://x/a.mp3") false)
      [Ev.metadata 30 true, Ev.probeFail 1] = true ∧
    decision (step (Ev.metadata 30 true) (mount (some "https://x/a.mp3") false)) =
      Decision.Real ∧
    decision (step (Ev.probeFail 1)
        (step (Ev.metadata 30 true) (mount (some "https://x/a.mp3") false))) =
      Decision.Fallback := by
  decide

/-- C2: a probe failure commits the decision to Fallback: whatever
within-session events follow (in particular a later metadata success), the
decision stays Fallback; and the handler clears the src of the owned audio
element, abandoning its in-flight load. -/
theorem c2_probe_fail_preempts (s : PlayerState) (sid : Nat) (evs : List Ev)
    (hevs : evs.all sessionEv = true) :
    decision (run evs (step (Ev.probeFail sid) s)) = Decision.Fallback ∧
    (step (Ev.probeFail sid) s).audioRef =
      s.audioRef.map (fun a => { a with src := "" }) := by
  constructor
  · refine (decision_fallback_iff _).mpr (Or.inl ?_)
    refine run_loadError evs _ hevs ?_
    simp [step, reconcileTimer, onProbeFail]
  · cases hr : s.audioRef <;> simp [step, reconcileTimer, onProbeFail, hr]

/-- Witness for c2_probe_fail_preempts: probe fails first, metadata arrives
later, the decision is still Fallback and the element src was cleared. -/
theorem c2_probe_fail_preempts_witness :
    decision (run [Ev.metadata 30 true]
        (step (Ev.probeFail 1) (mount (some "https://x/a.mp3") false))) =
      Decision.Fallback ∧
    (step (Ev.probeFail 1) (mount (some "https://x/a.mp3") false)).audioRef =
      (mount (some "https://x/a.mp3") false).audioRef.map
        (fun a => { a with src := "" }) :=
  c2_probe_fail_preempts (mount (some "https://x/a.mp3") false) 1
    [Ev.metadata 30 true] (by decide)

/-- C3 counterexample: a probe failure alone (the 404 scenario) commits
Fallback but invokes onError zero times, not exactly once: the catch
handler of the HEAD request (lines 118-125) never calls onError. -/
theorem c3_counterexample :
    validFrom (mount (some "https://x/a.mp3") false) [Ev.probeFail 1] = true ∧
    decision (step (Ev.probeFail 1) (mount (some "https://x/a.mp3") false)) =
      Decision.Fallback ∧
    (step (Ev.probeFail 1) (mount (some "https://x/a.mp3") false)).errors =
      [] := by
  decide

/-- C3 amended: a probe failure commits the decision to Fallback but does
not itself invoke onError; onError is invoked, with the message Audio
failed to load, exactly by each error event of the media element (which the
cleared src may subsequently provoke), and such an event also commits
Fallback. -/
theorem c3_probe_fail_vs_onerror (s : PlayerState) (sid : Nat) :
    decision (step (Ev.probeFail sid) s) = Decision.Fallback ∧
    (step (Ev.probeFail sid) s).errors = s.errors ∧
    (step Ev.mediaError s).errors = s.errors ++ ["Audio failed to load"] ∧
    decision (step Ev.mediaError s) = Decision.Fallback := by
  refine ⟨?_, ?_, ?_, ?_⟩
  · exact (decision_fallback_iff _).mpr
      (Or.inl (by simp [step, reconcileTimer, onProbeFail]))
  · simp [step, reconcileTimer, onProbeFail]
  · simp [step, reconcileTimer, onMediaError]
  · exact (decision_fallback_iff _).mpr
      (Or.inl (by simp [step, reconcileTimer, onMediaError]))

/-- C9: the unmount teardown is idempotent: running it a second time on the
same session state changes nothing beyond the first run. -/
theorem c9_teardown_idempotent (s : PlayerState) :
    teardown (teardown s) = teardown s := by
  unfold teardown
  cases hr : s.audioRef <;> simp [hr]

/-- In the no-asset session every deliverable within-session event leaves
the state unchanged: there is no element, no pending probe and no interval,
so only a seek can arrive, and it is a no-op. -/
theorem mount_none_fixed (ap : Bool) (e : Ev) (hse : sessionEv e = true)
    (hok : evOk (mount none ap) e = true) :
    step e (mount none ap) = mount none ap := by
  cases e <;>
    simp_all [evOk, sessionEv, mount, startSession, initState, resetState,
      step, reconcileTimer, handleSeek]

/-- The no-asset session state is a fixed point of every valid
within-session trace. -/
theorem run_mount_none_fixed (ap : Bool) (evs : List Ev)
    (hse : evs.all sessionEv = true)
    (hv : validFrom (mount none ap) evs = true) :
    run evs (mount none ap) = mount none ap := by
  induction evs with
  | nil => rfl
  | cons e es ih =>
      simp only [List.all_cons, Bool.and_eq_true] at hse
      simp only [validFrom, Bool.and_eq_true] at hv
      have hfix := mount_none_fixed ap e hse.1 hv.1
      show run es (step e (mount none ap)) = mount none ap
      rw [hfix]
      exact ih hse.2 (by rw [hfix] at hv; exact hv.2)

/-- C4: with an absent asset reference the decision is Fallback
synchronously, no HEAD probe is issued, no audio element is created, and
along any valid within-session trace onError is never invoked and no probe
or element ever appears. -/
theorem c4_no_asset_silent_fallback (ap : Bool) (evs : List Ev)
    (hse : evs.all sessionEv = true)
    (hv : validFrom (mount none ap) evs = true) :
    decision (mount none ap) = Decision.Fallback ∧
    (mount none ap).headRequests = 0 ∧
    (mount none ap).audiosCreated = 0 ∧
    (mount none ap).errors = [] ∧
    decision (run evs (mount none ap)) = Decision.Fallback ∧
    (run evs (mount none ap)).errors = [] ∧
    (run evs (mount none ap)).headRequests = 0 ∧
    (run evs (mount none ap)).audiosCreated = 0 := by
  have hfix := run_mount_none_fixed ap evs hse hv
  rw [hfix]
  have hbase : decision (mount none ap) = Decision.Fallback ∧
      (mount none ap).headRequests = 0 ∧
      (mount none ap).audiosCreated = 0 ∧
      (mount none ap).errors = [] := by cases ap <;> decide
  exact ⟨hbase.1, hbase.2.1, hbase.2.2.1, hbase.2.2.2, hbase.1, hbase.2.2.2,
    hbase.2.1, hbase.2.2.1⟩

/-- Witness for c4_no_asset_silent_fallback at a concrete input. -/
theorem c4_no_asset_silent_fallback_witness :
    decision (run [Ev.seek 5] (mount none false)) = Decision.Fallback ∧
    (run [Ev.seek 5] (mount none false)).errors = [] :=
  ⟨(c4_no_asset_silent_fallback false [Ev.seek 5] (by decide) (by decide)).2.2.2.2.1,
   (c4_no_asset_silent_fallback false [Ev.seek 5] (by decide) (by decide)).2.2.2.2.2.1⟩

/-- C5: evaluation of the code at the failing input.  Session 1 mounts with
one URL and issues probe 1; the asset reference then changes, tearing down
session 1 and starting session 2 (decision Pending, fresh element loading
the new URL, probes 2 and 1 both pending).  When the stale probe 1 then
fails, the handler is not a no-op: lacking any liveness check it clears the
src of the new session element and commits the new session decision to
Fallback. -/
theorem c5_late_probe_not_noop :
    decision (step (Ev.setUrl (some "https://x/b.mp3"))
        (mount (some "https://x/a.mp3") false)) = Decision.Pending ∧
    (step (Ev.setUrl (some "https://x/b.mp3"))
        (mount (some "https://x/a.mp3") false)).pendingProbes = [2, 1] ∧
    ((step (Ev.setUrl (some "https://x/b.mp3"))
        (mount (some "https://x/a.mp3") false)).audioRef.map AudioElem.src) =
      some "https://x/b.mp3" ∧
    decision (step (Ev.probeFail 1)
        (step (Ev.setUrl (some "https://x/b.mp3"))
          (mount (some "https://x/a.mp3") false))) = Decision.Fallback ∧
    ((step (Ev.probeFail 1)
        (step (Ev.setUrl (some "https://x/b.mp3"))
          (mount (some "https://x/a.mp3") false))).audioRef.map
        AudioElem.src) = some "" := by
  decide

/-- Invariant of the progress machinery: the published progress stays in
the 0-100 slider range, it is zero whenever the published duration is zero,
and the owned element duration is nonnegative and agrees with the published
duration unless the element is a fresh one (duration still zero) with no
progress published yet. -/
def ProgInv (s : PlayerState) : Prop :=
  0 ≤ s.progress ∧ s.progress ≤ 100 ∧ (s.duration = 0 → s.progress = 0) ∧
    ∀ a, s.audioRef = some a →
      0 ≤ a.duration ∧
        (a.duration = s.duration ∨ (a.duration = 0 ∧ s.progress = 0))

/-- Reconciling the progress timer does not touch the fields of ProgInv. -/
theorem ProgInv_reconcile (s : PlayerState) : ProgInv (reconcileTimer s) ↔ ProgInv s := by
  simp [ProgInv, reconcileTimer]

/-- The effect cleanup touches only the src and paused fields of the owned
element, so it preserves the progress invariant. -/
theorem ProgInv_effectCleanup (s : PlayerState) (h : ProgInv s) :
    ProgInv (effectCleanup s) := by
  obtain ⟨h0, h1, h2, h3⟩ := h
  unfold effectCleanup
  rcases hr : s.audioRef with _ | a
  · exact ⟨h0, h1, h2, h3⟩
  · refine ⟨h0, h1, h2, ?_⟩
    intro a' ha'
    obtain ⟨rfl⟩ : a' = _ := by injection ha' with h; exact h.symm
    exact h3 a hr

/-- Every deliverable event preserves the progress invariant. -/
theorem ProgInv_step (e : Ev) (s : PlayerState) (hok : evOk s e = true)
    (h : ProgInv s) : ProgInv (step e s) := by
  obtain ⟨h0, h1, h2, h3⟩ := h
  cases e with
  | metadata d ok =>
      rcases hr : s.audioRef with _ | a
      · simp [evOk, hr] at hok
      · simp only [evOk, hr, Bool.and_eq_true, decide_eq_true_eq] at hok
        obtain ⟨⟨hd0, -⟩, hdnn⟩ := hok
        have hp0 : s.progress = 0 := by
          rcases (h3 a hr).2 with hcase | hcase
          · exact h2 (by rw [← hcase, hd0])
          · exact hcase.2
        rw [step, ProgInv_reconcile]
        refine ⟨h0, h1, fun _ => hp0, ?_⟩
        intro a' ha'
        simp only [onLoadedMetadata, hr, Option.map_some] at ha'
        obtain ⟨rfl⟩ : a' = _ := by injection ha' with h; exact h.symm
        exact ⟨hdnn, Or.inl rfl⟩
  | play =>
      rw [step, ProgInv_reconcile]
      exact ⟨h0, h1, h2, h3⟩
  | pause =>
      rw [step, ProgInv_reconcile]
      exact ⟨h0, h1, h2, h3⟩
  | ended =>
      rw [step, ProgInv_reconcile]
      unfold ProgInv onEndedEv
      dsimp only
      refine ⟨le_refl 0, by norm_num, fun _ => rfl, ?_⟩
      intro a ha
      rcases (h3 a ha).2 with hcase | hcase
      · exact ⟨(h3 a ha).1, Or.inl hcase⟩
      · exact ⟨(h3 a ha).1, Or.inr ⟨hcase.1, rfl⟩⟩
  | mediaError =>
      rw [step, ProgInv_reconcile]
      exact ⟨h0, h1, h2, h3⟩
  | probeOk sid =>
      rw [step, ProgInv_reconcile]
      exact ⟨h0, h1, h2, h3⟩
  | probeFail sid =>
      rw [step, ProgInv_reconcile]
      refine ⟨h0, h1, h2, ?_⟩
      intro a' ha'
      rcases hr : s.audioRef with _ | a
      · simp [onProbeFail, hr] at ha'
      · simp only [onProbeFail, hr, Option.map_some] at ha'
        obtain ⟨rfl⟩ : a' = _ := by injection ha' with h; exact h.symm
        exact h3 a hr
  | tick c =>
      rcases hr : s.audioRef with _ | a
      · simp only [step, ProgInv_reconcile, tickSample, hr]
        exact ⟨h0, h1, h2, h3⟩
      · simp only [evOk, hr, Bool.and_eq_true, decide_eq_true_eq] at hok
        obtain ⟨-, hc0, hcd⟩ := hok
        rw [step, ProgInv_reconcile]
        by_cases hd : a.duration = 0
        · simp only [tickSample, hr]
          rw [if_pos hd]
          unfold ProgInv
          dsimp only
          refine ⟨h0, h1, h2, ?_⟩
          intro a' ha'
          obtain ⟨rfl⟩ : a' = _ := by injection ha' with h; exact h.symm
          exact h3 a hr
        · have hdagree : a.duration = s.duration := by
            rcases (h3 a hr).2 with hcase | hcase
            · exact hcase
            · exact absurd hcase.1 hd
          have hdpos : 0 < a.duration := lt_of_le_of_ne (h3 a hr).1 (Ne.symm hd)
          have hfr0 : 0 ≤ c / a.duration := div_nonneg hc0 hdpos.le
          have hfr1 : c / a.duration ≤ 1 := (div_le_one hdpos).mpr hcd
          simp only [tickSample, hr]
          rw [if_neg hd]
          unfold ProgInv
          dsimp only
          refine ⟨by positivity, by nlinarith, ?_, ?_⟩
          · intro hzero
            exact absurd hzero (by rw [← hdagree]; exact hd)
          · intro a' ha'
            obtain ⟨rfl⟩ : a' = _ := by injection ha' with h; exact h.symm
            exact ⟨(h3 a hr).1, Or.inl hdagree⟩
  | seek v =>
      simp only [evOk, Bool.and_eq_true, decide_eq_true_eq] at hok
      obtain ⟨hv0, hv1⟩ := hok
      rcases hr : s.audioRef with _ | a
      · simp only [step, ProgInv_reconcile, handleSeek, hr]
        exact ⟨h0, h1, h2, h3⟩
      · rw [step, ProgInv_reconcile]
        by_cases hd : a.duration = 0
        · simp only [handleSeek, hr, if_pos rfl, hd]
          exact ⟨h0, h1, h2, h3⟩
        · have hdagree : a.duration = s.duration := by
            rcases (h3 a hr).2 with hcase | hcase
            · exact hcase
            · exact absurd hcase.1 hd
          simp only [handleSeek, hr, if_neg hd]
          refine ⟨hv0, hv1, ?_, ?_⟩
          · intro hzero
            exact absurd hzero (by rw [← hdagree]; exact hd)
          · intro a' ha'
            obtain ⟨rfl⟩ : a' = _ := by injection ha' with h; exact h.symm
            exact ⟨(h3 a hr).1, Or.inl hdagree⟩
  | setUrl u =>
      rw [step, ProgInv_reconcile]
      have hmid : ProgInv (if s.audioUrl.isSome then effectCleanup s else s) := by
        split
        · exact ProgInv_effectCleanup s ⟨h0, h1, h2, h3⟩
        · exact ⟨h0, h1, h2, h3⟩
      show ProgInv (startSession u (if s.audioUrl.isSome then effectCleanup s else s))
      revert hmid
      generalize (if s.audioUrl.isSome then effectCleanup s else s) = t
      intro hmid
      obtain ⟨g0, g1, g2, g3⟩ := hmid
      rcases u with _ | u
      · unfold startSession resetState ProgInv
        dsimp only
        refine ⟨le_refl 0, by norm_num, fun _ => rfl, ?_⟩
        intro a ha
        rcases (g3 a ha).2 with hcase | hcase
        · exact ⟨(g3 a ha).1, Or.inl hcase⟩
        · exact ⟨(g3 a ha).1, Or.inr ⟨hcase.1, rfl⟩⟩
      · unfold startSession resetState ProgInv
        dsimp only
        refine ⟨le_refl 0, by norm_num, fun _ => rfl, ?_⟩
        intro a ha
        obtain ⟨rfl⟩ : a = _ := by injection ha with h; exact h.symm
        exact ⟨le_refl 0, Or.inr ⟨rfl, rfl⟩⟩

/-- The progress invariant is preserved along any valid trace. -/
theorem ProgInv_run (evs : List Ev) :
    ∀ s : PlayerState, validFrom s evs = true → ProgInv s →
      ProgInv (run evs s) := by
  induction evs with
  | nil => intro s _ h; exact h
  | cons e es ih =>
      intro s hv h
      simp only [validFrom, Bool.and_eq_true] at hv
      exact ih (step e s) hv.2 (ProgInv_step e s hv.1 h)

/-- The progress invariant holds right after mounting. -/
theorem ProgInv_mount (url : Option String) (ap : Bool) :
    ProgInv (mount url ap) := by
  rcases url with _ | u
  · unfold mount startSession resetState initState ProgInv
    dsimp only
    exact ⟨le_refl 0, by norm_num, fun _ => rfl, by intro a ha; cases ha⟩
  · unfold mount startSession resetState initState ProgInv
    dsimp only
    refine ⟨le_refl 0, by norm_num, fun _ => rfl, ?_⟩
    intro a ha
    obtain ⟨rfl⟩ : a = _ := by injection ha with h; exact h.symm
    exact ⟨le_refl 0, Or.inr ⟨rfl, rfl⟩⟩

/-- C6: along every valid trace from a mount, the normalized published
progress stays in the interval from 0 to 1, it is exactly 0 whenever the
published duration is 0, and an interval tick with a known nonzero element
duration publishes exactly currentTime divided by duration. -/
theorem c6_position_fraction_bounds (url : Option String) (ap : Bool)
    (evs : List Ev) (hv : validFrom (mount url ap) evs = true) :
    (0 ≤ positionFraction (run evs (mount url ap)) ∧
     positionFraction (run evs (mount url ap)) ≤ 1 ∧
     ((run evs (mount url ap)).duration = 0 →
        positionFraction (run evs (mount url ap)) = 0)) ∧
    ∀ (c : ℚ) (a : AudioElem),
      (run evs (mount url ap)).audioRef = some a → a.duration ≠ 0 →
        positionFraction (step (Ev.tick c) (run evs (mount url ap))) =
          c / a.duration := by
  obtain ⟨h0, h1, -, -⟩ :=
    ProgInv_run evs (mount url ap) hv (ProgInv_mount url ap)
  constructor
  · refine ⟨div_nonneg h0 (by norm_num), ?_, ?_⟩
    · rw [positionFraction, div_le_one (by norm_num : (0:ℚ) < 100)]; exact h1
    · intro hdur
      obtain ⟨-, -, h2, -⟩ :=
        ProgInv_run evs (mount url ap) hv (ProgInv_mount url ap)
      rw [positionFraction, h2 hdur, zero_div]
  · intro c a ha hd
    simp only [step, reconcileTimer, tickSample, ha, if_neg hd,
      positionFraction]
    rw [mul_div_assoc, div_self (by norm_num : (100:ℚ) ≠ 0), mul_one]

/-- Witness for c6_position_fraction_bounds: metadata with duration 30,
playback starts, and a tick at position 15 publishes exactly one half. -/
theorem c6_position_fraction_bounds_witness :
    (0 ≤ positionFraction (run [Ev.metadata 30 true, Ev.play]
        (mount (some "https://x/a.mp3") false)) ∧
     positionFraction (run [Ev.metadata 30 true, Ev.play]
        (mount (some "https://x/a.mp3") false)) ≤ 1) ∧
    positionFraction (step (Ev.tick 15) (run [Ev.metadata 30 true, Ev.play]
        (mount (some "https://x/a.mp3") false))) = 15 / 30 := by
  have h := c6_position_fraction_bounds (some "https://x/a.mp3") false
    [Ev.metadata 30 true, Ev.play] (by decide)
  refine ⟨⟨h.1.1, h.1.2.1⟩, ?_⟩
  exact h.2 15
    { src := "https://x/a.mp3", paused := true, currentTime := 0,
      duration := 30, volume := 1 } (by decide) (by decide)

/-- C7: a seek is a no-op without an element or with an unknown (zero)
duration; with a known duration it assigns the absolute time
fraction / 100 * duration on the element and immediately publishes the new
position, whose normalized value is fraction / 100, without waiting for a
tick. -/
theorem c7_seek_semantics (s : PlayerState) (v : ℚ) :
    (s.audioRef = none → handleSeek v s = s) ∧
    (∀ a, s.audioRef = some a → a.duration = 0 → handleSeek v s = s) ∧
    (∀ a, s.audioRef = some a → a.duration ≠ 0 →
      (handleSeek v s).audioRef =
        some { a with currentTime := v / 100 * a.duration } ∧
      (handleSeek v s).progress = v ∧
      positionFraction (handleSeek v s) = v / 100) := by
  refine ⟨?_, ?_, ?_⟩
  · intro hr; simp [handleSeek, hr]
  · intro a hr hd; simp [handleSeek, hr, hd]
  · intro a hr hd
    simp [handleSeek, hr, hd, positionFraction]

/-- Witness for c7_seek_semantics: with duration 30, seek to fraction 50
assigns 15 seconds on the element and publishes one half. -/
theorem c7_seek_semantics_witness :
    ((handleSeek 50 (run [Ev.metadata 30 true]
        (mount (some "https://x/a.mp3") false))).audioRef.map
      AudioElem.currentTime) = some 15 ∧
    positionFraction (handleSeek 50 (run [Ev.metadata 30 true]
        (mount (some "https://x/a.mp3") false))) = 1 / 2 := by
  have h := (c7_seek_semantics (run [Ev.metadata 30 true]
      (mount (some "https://x/a.mp3") false)) 50).2.2
    { src := "https://x/a.mp3", paused := true, currentTime := 0,
      duration := 30, volume := 1 } (by decide) (by decide)
  refine ⟨?_, ?_⟩
  · rw [h.1]; simp; norm_num
  · rw [h.2.2]; norm_num

/-- C8: when autoPlay is requested and the playback attempt made by the
metadata handler fails, nothing is escalated: onError is not invoked, the
decision is the same as if the attempt had succeeded, and with no failure
recorded it is Real, not Fallback. -/
theorem c8_autoplay_failure_logged_only (s : PlayerState) (d : ℚ)
    (u : String) (_hap : s.autoPlay = true) (hurl : s.audioUrl = some u) :
    (step (Ev.metadata d false) s).errors = s.errors ∧
    decision (step (Ev.metadata d false) s) =
      decision (step (Ev.metadata d true) s) ∧
    (s.loadError = false →
      decision (step (Ev.metadata d false) s) = Decision.Real) := by
  refine ⟨?_, ?_, ?_⟩
  · simp [step, reconcileTimer, onLoadedMetadata]
  · simp [decision, step, reconcileTimer, onLoadedMetadata]
  · intro hle
    refine (decision_real_iff _).mpr ⟨?_, ?_, ?_⟩ <;>
      simp [step, reconcileTimer, onLoadedMetadata, hle, hurl]

/-- Witness for c8_autoplay_failure_logged_only at a concrete input. -/
theorem c8_autoplay_failure_logged_only_witness :
    (step (Ev.metadata 30 false) (mount (some "https://x/a.mp3") true)).errors =
      (mount (some "https://x/a.mp3") true).errors ∧
    decision (step (Ev.metadata 30 false)
      (mount (some "https://x/a.mp3") true)) = Decision.Real := by
  have h := c8_autoplay_failure_logged_only
    (mount (some "https://x/a.mp3") true) 30 "https://x/a.mp3"
    (by decide) (by decide)
  exact ⟨h.1, h.2.2 (by decide)⟩

/-- Global left-to-right removal of every non-overlapping occurrence of a
literal pattern, as performed by the JS replace of an escaped literal with
the g flag and an empty replacement.  The fuel counts remaining characters
so the recursion is structural and the kernel can evaluate it. -/
def removeOccAux (pat : List Char) : Nat → List Char → List Char
  | 0, l => l
  | _ + 1, [] => []
  | fuel + 1, x :: xs =>
      if pat.isPrefixOf (x :: xs) && !pat.isEmpty then
        removeOccAux pat fuel ((x :: xs).drop pat.length)
      else x :: removeOccAux pat fuel xs

/-- Removal of every occurrence of pat, scanning left to right without
rescanning the text already produced. -/
def removeOcc (pat l : List Char) : List Char :=
  removeOccAux pat l.length l

/-- Removal of every maximal run of at least k copies of c, as performed by
the JS global replace of a greedy run pattern with an empty replacement.
The pending argument counts copies of c already scanned in the current
run. -/
def stripRunsAux (c : Char) (k : Nat) : List Char → Nat → List Char
  | [], p => if k ≤ p then [] else List.replicate p c
  | x :: xs, p =>
      if x == c then stripRunsAux c k xs (p + 1)
      else (if k ≤ p then [] else List.replicate p c) ++
        x :: stripRunsAux c k xs 0

/-- Removal of leading and trailing whitespace, as performed by the JS
trim. -/
def trimChars (cs : List Char) : List Char :=
  ((cs.dropWhile Char.isWhitespace).reverse.dropWhile Char.isWhitespace).reverse

/-- stripBlankMarker of FlowchartCompletion.tsx lines 38-48: with a falsy
question number (absent, or the number 0) the label is returned unchanged;
otherwise the label goes through the five successive global replaces of the
source and a final trim: remove every occurrence of the parenthesized
number, then every occurrence of the bracketed number, then every run of
two or more underscores, then every run of three or more dots, then the
literal run of six underscores (nothing by then, the third pass removed
every such run), and trim. -/
def stripBlankMarker (label : String) (questionNumber : Option Nat) : String :=
  match questionNumber with
  | none => label
  | some n =>
      if n = 0 then label
      else
        let cs := label.toList
        let cs := removeOcc ('(' :: (Nat.repr n).toList ++ [')']) cs
        let cs := removeOcc ('[' :: (Nat.repr n).toList ++ [']']) cs
        let cs := stripRunsAux '_' 2 cs 0
        let cs := stripRunsAux '.' 3 cs 0
        let cs := removeOcc "______".toList cs
        String.mk (trimChars cs)

example : stripBlankMarker "Boil (3) for ____ minutes" (some 3) =
    "Boil  for  minutes" := by decide
example : stripBlankMarker "Step [2] ... done" (some 2) = "Step   done" := by
  decide

/-- Two adjacent copies of c occur somewhere in the list. -/
def hasDouble (c : Char) : List Char → Bool
  | x :: y :: xs => (x == c && y == c) || hasDouble c (y :: xs)
  | _ => false

/-- Prepending a character different from c cannot create a double of c. -/
theorem hasDouble_cons_of_ne (c x : Char) (l : List Char)
    (hx : (x == c) = false) : hasDouble c (x :: l) = hasDouble c l := by
  cases l with
  | nil => simp [hasDouble]
  | cons y ys => simp [hasDouble, hx]

/-- The underscore pass leaves no two adjacent copies of the stripped
character, whatever run was pending. -/
theorem hasDouble_stripRunsAux (c : Char) (cs : List Char) :
    ∀ p, hasDouble c (stripRunsAux c 2 cs p) = false := by
  induction cs with
  | nil =>
      intro p
      match p with
      | 0 => simp [stripRunsAux, hasDouble]
      | 1 => simp [stripRunsAux, hasDouble, List.replicate]
      | p + 2 =>
          rw [stripRunsAux, if_pos (by omega)]
          simp [hasDouble]
  | cons x xs ih =>
      intro p
      rcases hxc : (x == c) with _ | _
      · rw [stripRunsAux, hxc]
        simp only [Bool.false_eq_true, if_false]
        match p with
        | 0 =>
            rw [if_neg (by omega), List.replicate, List.nil_append,
              hasDouble_cons_of_ne c x _ hxc]
            exact ih 0
        | 1 =>
            rw [if_neg (by omega), List.replicate, List.replicate]
            show hasDouble c (c :: x :: stripRunsAux c 2 xs 0) = false
            rw [hasDouble, hasDouble_cons_of_ne c x _ hxc, ih 0, hxc]
            simp
        | p + 2 =>
            rw [if_pos (by omega), List.nil_append,
              hasDouble_cons_of_ne c x _ hxc]
            exact ih 0
      · rw [stripRunsAux, hxc]
        simp only [if_true]
        exact ih (p + 1)

/-- C10 counterexample: the claim as stated is false on the code at two
concrete inputs.  With question number 0 (a number the falsy check of line
39 treats as absent) the label is returned unchanged, so the occurrence of
the marker for number 0 is not removed; and with question number 3 the
successive removals can manufacture the very marker they were meant to
remove: stripping the underscore run inside the label (3___) yields (3),
so the rendered step text does contain the blank marker for its own
question number. -/
theorem c10_counterexample :
    stripBlankMarker "(0)" (some 0) = "(0)" ∧
    stripBlankMarker "(3___)" (some 3) = "(3)" := by
  decide

/-- C10 amended: with an absent or zero question number the label is
returned unchanged; with a question number n that is not 0 the result is
the label rewritten by five successive left-to-right global removals
applied in the order of the source - every occurrence of the parenthesized
n, then of the bracketed n, then every run of two or more underscores, then
every run of three or more dots, then the literal six-underscore run - and
finally trimmed.  Each pass removes every occurrence or run from its own
input (for the underscore pass: its output has no two adjacent
underscores), but the passes are successive and do not rescan, so a later
pass can manufacture a marker an earlier pass was meant to remove. -/
theorem c10_strip_blank_marker (label : String) (n : Nat) :
    stripBlankMarker label none = label ∧
    stripBlankMarker label (some 0) = label ∧
    (n ≠ 0 → stripBlankMarker label (some n) =
      String.mk (trimChars (removeOcc "______".toList (stripRunsAux '.' 3
        (stripRunsAux '_' 2 (removeOcc ('[' :: (Nat.repr n).toList ++ [']'])
          (removeOcc ('(' :: (Nat.repr n).toList ++ [')']) label.toList))
          0) 0)))) ∧
    (∀ cs : List Char, hasDouble '_' (stripRunsAux '_' 2 cs 0) = false) := by
  refine ⟨rfl, rfl, ?_, ?_⟩
  · intro hn
    simp [stripBlankMarker, hn]
  · intro cs
    exact hasDouble_stripRunsAux '_' cs 0

/-- Witness for c10_strip_blank_marker at a concrete input. -/
theorem c10_strip_blank_marker_witness :
    stripBlankMarker "Boil (3) for ____ minutes" (some 3) =
      String.mk (trimChars (removeOcc "______".toList (stripRunsAux '.' 3
        (stripRunsAux '_' 2 (removeOcc ('[' :: (Nat.repr 3).toList ++ [']'])
          (removeOcc ('(' :: (Nat.repr 3).toList ++ [')'])
            ("Boil (3) for ____ minutes").toList)) 0) 0))) ∧
    hasDouble '_' (stripRunsAux '_' 2 "__a__".toList 0) = false :=
  ⟨(c10_strip_blank_marker "Boil (3) for ____ minutes" 3).2.2.1 (by decide),
   (c10_strip_blank_marker "Boil (3) for ____ minutes" 3).2.2.2 "__a__".toList⟩
